import Mathlib

/-!
Shallow embedding of the quackmap persistent multimap (Rust crate `quackmap`).

The buffer is modelled as a `List Nat` of bytes.  All 64-bit machine
arithmetic is modelled on `Nat` with explicit `2 ^ 64` bounds exactly where
the source uses `checked_add` / `checked_mul` / `checked_rem`; fallible
operations return `Option`.  The mutating `Quack.write` returns the buffer
together with a success flag, so that error paths expose the (possibly
partially mutated) buffer state, faithfully to `&mut self` in the source.

Layout (all u64 big-endian), from `src/lib.rs`:
  [0..8)               num_slots
  [8..16)              store_len (bump allocator cursor)
  [16..16+8*num_slots) slots array
  [16+8*num_slots..)   store of nodes: next (u64), payload_len (u64), payload
-/

/-- Upper bound of `u64` arithmetic: `2 ^ 64`. -/
def u64Bound : Nat := 2 ^ 64

/-- Models `u64::checked_add` (and `usize::checked_add` on a 64-bit platform). -/
def checked_add (a b : Nat) : Option Nat :=
  if a + b < u64Bound then some (a + b) else none

/-- Models `u64::checked_mul`. -/
def checked_mul (a b : Nat) : Option Nat :=
  if a * b < u64Bound then some (a * b) else none

/-- Models `u64::checked_rem`: `none` exactly on a zero divisor. -/
def checked_rem (a b : Nat) : Option Nat :=
  if b = 0 then none else some (a % b)

/-- Big-endian byte decoding, as in `u64::from_be_bytes`. -/
def be_combine (l : List Nat) : Nat :=
  l.foldl (fun acc b => acc * 256 + b) 0

/-- Big-endian byte encoding of a `u64`, as in `u64::to_be_bytes`. -/
def toBE8 (v : Nat) : List Nat :=
  [v / 256 ^ 7 % 256, v / 256 ^ 6 % 256, v / 256 ^ 5 % 256, v / 256 ^ 4 % 256,
   v / 256 ^ 3 % 256, v / 256 ^ 2 % 256, v / 256 ^ 1 % 256, v % 256]

/-- The sub-slice `data[a..a+n]`, as produced by Rust `data.get(a..a+n)`. -/
def getSlice (l : List Nat) (a n : Nat) : List Nat := (l.drop a).take n

/-- Replacement of the bytes `[s, s + m.length)` of `l` by `m`; models
`slice.copy_from_slice` into `data[s..s+m.len()]`. -/
def setRange (l : List Nat) (s : Nat) (m : List Nat) : List Nat :=
  l.take s ++ m ++ l.drop (s + m.length)

/-- Models `get_range` / `get_range_dynamic` from `src/lib.rs`: checked end
offset, then `data.get(start..end)`. -/
def get_range_dynamic (data : List Nat) (start len : Nat) : Option (List Nat) :=
  match checked_add start len with
  | none => none
  | some e => if e ≤ data.length then some (getSlice data start len) else none

/-- Models `read_u64` from `src/lib.rs`. -/
def read_u64 (data : List Nat) (start : Nat) : Option Nat :=
  match get_range_dynamic data start 8 with
  | none => none
  | some raw => some (be_combine raw)

/-- Models `write_u64` from `src/lib.rs`. -/
def write_u64 (data : List Nat) (start v : Nat) : Option (List Nat) :=
  match checked_add start 8 with
  | none => none
  | some e => if e ≤ data.length then some (setRange data start (toBE8 v)) else none

/-- Models `write_range` from `src/lib.rs`. -/
def write_range (data : List Nat) (start : Nat) (buf : List Nat) : Option (List Nat) :=
  match checked_add start buf.length with
  | none => none
  | some e => if e ≤ data.length then some (setRange data start buf) else none

/-- Models `stor::read_num_slots`. -/
def read_num_slots (data : List Nat) : Option Nat := read_u64 data 0

/-- Models `stor::read_store_len`. -/
def read_store_len (data : List Nat) : Option Nat := read_u64 data 8

/-- Models `stor::write_store_len`. -/
def write_store_len (data : List Nat) (store_len : Nat) : Option (List Nat) :=
  write_u64 data 8 store_len

/-- Models `stor::write_num_slots`. -/
def write_num_slots (data : List Nat) (num_slots : Nat) : Option (List Nat) :=
  write_u64 data 0 num_slots

/-- Models `stor::read_slot`: slot offset `slot_index * 8 + 16`, checked. -/
def read_slot (data : List Nat) (slot_index : Nat) : Option Nat :=
  match checked_mul slot_index 8 with
  | none => none
  | some o =>
    match checked_add o 16 with
    | none => none
    | some slot_offset => read_u64 data slot_offset

/-- Models `stor::write_slot`. -/
def write_slot (data : List Nat) (slot_index value : Nat) : Option (List Nat) :=
  match checked_mul slot_index 8 with
  | none => none
  | some o =>
    match checked_add o 16 with
    | none => none
    | some slot_offset => write_u64 data slot_offset value

/-- Models `stor::store_start`: `16 + 8 * num_slots`, checked. -/
def store_start (num_slots : Nat) : Option Nat :=
  match checked_mul num_slots 8 with
  | none => none
  | some s => checked_add 16 s

/-- Models `val::write`: node header (next pointer, payload length) then the
payload, each sub-write performed in source order; on failure the buffer
state reached so far is returned with the `false` flag. -/
def val_write (data : List Nat) (start nxt : Nat) (payload : List Nat) :
    List Nat × Bool :=
  match checked_add 0 start with
  | none => (data, false)
  | some o1 =>
    match write_u64 data o1 nxt with
    | none => (data, false)
    | some d1 =>
      match checked_add 8 start with
      | none => (d1, false)
      | some o2 =>
        match write_u64 d1 o2 payload.length with
        | none => (d1, false)
        | some d2 =>
          match checked_add 16 start with
          | none => (d2, false)
          | some o3 =>
            match write_range d2 o3 payload with
            | none => (d2, false)
            | some d3 => (d3, true)

/-- Models the `Sequence` iterator of `src/lib.rs`: a borrowed buffer plus a
cursor holding the absolute offset of the next node (0 = end). -/
structure Sequence where
  data : List Nat
  next : Nat
deriving Repr, DecidableEq

/-- Models `Sequence::empty`. -/
def Sequence.empty : Sequence := ⟨[], 0⟩

/-- Models `Sequence::try_next`: outer `none` is the `OutaBounds` error,
inner `none` is end of list. -/
def Sequence.tryNext (s : Sequence) : Option (Option (List Nat × Sequence)) :=
  if s.next = 0 then some none
  else
    match checked_add 0 s.next with
    | none => none
    | some o1 =>
      match read_u64 s.data o1 with
      | none => none
      | some next_start =>
        match checked_add 8 s.next with
        | none => none
        | some o2 =>
          match read_u64 s.data o2 with
          | none => none
          | some payload_len =>
            match checked_add 16 s.next with
            | none => none
            | some o3 =>
              match get_range_dynamic s.data o3 payload_len with
              | none => none
              | some ret => some (some (ret, ⟨s.data, next_start⟩))

/-- Fuelled collection of the `Iterator` instance for `Sequence`, whose
`next` collapses a `try_next` error to end-of-sequence. -/
def seqTake : Nat → Sequence → List (List Nat)
  | 0, _ => []
  | fuel + 1, s =>
    match s.tryNext with
    | some (some (p, s2)) => p :: seqTake fuel s2
    | _ => []

/-- Collects all items of the sequence.  For every chain produced by the
engine the cursor strictly decreases at each step, so `next + 1` units of
fuel always reach the end of the list. -/
def Sequence.collect (s : Sequence) : List (List Nat) := seqTake (s.next + 1) s

/-- Models `Quack::read` from `src/lib.rs`. -/
def Quack.read (data : List Nat) (k : Nat) : Option Sequence :=
  match read_num_slots data with
  | none => none
  | some num_slots =>
    match checked_rem k num_slots with
    | none => some Sequence.empty
    | some slot_index =>
      match read_slot data slot_index with
      | none => none
      | some head => some ⟨data, head⟩

/-- Models `Quack::initialize_assume_zeroed` from `src/lib.rs` (the Lean name
avoids the full source name for lexical reasons): size check against
`store_start`, then header writes. -/
def init_assume_zeroed (data : List Nat) (num_slots : Nat) : Option (List Nat) :=
  match store_start num_slots with
  | none => none
  | some ss =>
    if data.length < ss then none
    else
      match write_store_len data 0 with
      | none => none
      | some d1 =>
        match write_num_slots d1 num_slots with
        | none => none
        | some d2 => some d2

/-- Models `Quack::write` from `src/lib.rs`.  Returns the buffer and a success
flag; on an error path the buffer reached at that point is returned. -/
def Quack.write (data : List Nat) (k : Nat) (v : List Nat) : List Nat × Bool :=
  match read_num_slots data with
  | none => (data, false)
  | some num_slots =>
    match read_store_len data with
    | none => (data, false)
    | some store_len =>
      match checked_rem k num_slots with
      | none => (data, false)
      | some slot_index =>
        match checked_add 16 v.length with
        | none => (data, false)
        | some t =>
          match checked_add t store_len with
          | none => (data, false)
          | some new_len =>
            match store_start num_slots with
            | none => (data, false)
            | some ss =>
              match checked_add ss new_len with
              | none => (data, false)
              | some required =>
                if required > data.length then (data, false)
                else
                  match read_slot data slot_index with
                  | none => (data, false)
                  | some old_head =>
                    match checked_add store_len ss with
                    | none => (data, false)
                    | some new_head =>
                      match val_write data new_head old_head v with
                      | (d1, false) => (d1, false)
                      | (d1, true) =>
                        match write_slot d1 slot_index new_head with
                        | none => (d1, false)
                        | some d2 =>
                          match write_store_len d2 new_len with
                          | none => (d2, false)
                          | some d3 => (d3, true)

/-- Modelled from the spec: the `Quack::slots` accessor used by the example's
`optimize` pass is not present in `src/`; per the spec the bucket count is
the `num_slots` header field, so the accessor is the header read. -/
def Quack.slots (data : List Nat) : Option Nat := read_num_slots data

/-- Folds a list of writes over a buffer, failing if any write fails;
"any sequence of successful writes" is `buildList buf ws = some buf2`. -/
def buildList : List Nat → List (Nat × List Nat) → Option (List Nat)
  | buf, [] => some buf
  | buf, (k, v) :: ws =>
    match Quack.write buf k v with
    | (buf2, true) => buildList buf2 ws
    | (_, false) => none

/-- Initialization on a zero-filled buffer of `m` bytes followed by a list of
writes, all required to succeed. -/
def buildFull (m n : Nat) (ws : List (Nat × List Nat)) : Option (List Nat) :=
  match init_assume_zeroed (List.replicate m 0) n with
  | none => none
  | some b => buildList b ws

/-- The list of payloads yielded by `read k`, collected through the iterator. -/
def readList (buf : List Nat) (k : Nat) : Option (List (List Nat)) :=
  match Quack.read buf k with
  | none => none
  | some s => some s.collect

/-- Inner loop of the example's `optimize`: re-insert the collected entries of
one source bucket into the destination, in the order given. -/
def optWriteChain (slot : Nat) : List Nat → List (List Nat) → Option (List Nat)
  | dest, [] => some dest
  | dest, e :: es =>
    match Quack.write dest slot e with
    | (d, true) => optWriteChain slot d es
    | (_, false) => none

/-- Outer loop of the example's `optimize`: for each bucket index, read the
source chain and re-insert each value into the destination in the order
read (the Rust `for entry in quack.read(slot)?` loop). -/
def optSlots (src : List Nat) : List Nat → List Nat → Option (List Nat)
  | dest, [] => some dest
  | dest, b :: rest =>
    match Quack.read src b with
    | none => none
    | some s =>
      match optWriteChain b dest s.collect with
      | none => none
      | some dest2 => optSlots src dest2 rest

/-- Models `optimize` from `examples/build-random-quack.rs`: fresh zeroed
buffer of the same size, same slot count, then per-bucket re-insertion. -/
def optimize (src : List Nat) : Option (List Nat) :=
  match Quack.slots src with
  | none => none
  | some n =>
    match init_assume_zeroed (List.replicate src.length 0) n with
    | none => none
    | some dest0 => optSlots src dest0 (List.range n)

/-- Modelled from the spec (§4.6 wording): variant of the outer loop that
re-inserts each chain in reverse of the order read, as the spec describes. -/
def optSlotsRev (src : List Nat) : List Nat → List Nat → Option (List Nat)
  | dest, [] => some dest
  | dest, b :: rest =>
    match Quack.read src b with
    | none => none
    | some s =>
      match optWriteChain b dest s.collect.reverse with
      | none => none
      | some dest2 => optSlotsRev src dest2 rest

/-- Modelled from the spec (§4.6 wording): the optimize pass as the spec
describes it, re-inserting each bucket's values in reverse of the order
read (oldest first). -/
def optimizeSpecRev (src : List Nat) : Option (List Nat) :=
  match Quack.slots src with
  | none => none
  | some n =>
    match init_assume_zeroed (List.replicate src.length 0) n with
    | none => none
    | some dest0 => optSlotsRev src dest0 (List.range n)

/-- Total store bytes consumed by a list of writes: 16 bytes of node header
plus the payload, per write. -/
def wsSize (ws : List (Nat × List Nat)) : Nat :=
  (ws.map (fun w => 16 + w.2.length)).sum

/-- Store bytes consumed by a list of payloads. -/
def sizeL (l : List (List Nat)) : Nat := (l.map (fun p => 16 + p.length)).sum

/-- The payloads written to the bucket `b` of an `n`-slot table, in
chronological order of writing. -/
def bucketEntries (n b : Nat) (ws : List (Nat × List Nat)) : List (List Nat) :=
  (ws.filter (fun w => w.1 % n == b)).map Prod.snd

/-- Well-formed chain of value nodes in `buf`: starting at absolute offset
`off` (0 = empty), the decoded payloads are `ps`, every node lies inside
`[lo, hi)`, and each node's next pointer is strictly smaller than the node's
own offset (hence chains are finite). -/
inductive Chain (buf : List Nat) (lo hi : Nat) : Nat → List (List Nat) → Prop
  | nil : Chain buf lo hi 0 []
  | cons {off nxt : Nat} {p : List Nat} {ps : List (List Nat)} :
      off ≠ 0 →
      lo ≤ off →
      off + 16 + p.length ≤ hi →
      read_u64 buf off = some nxt →
      read_u64 buf (8 + off) = some p.length →
      get_range_dynamic buf (16 + off) p.length = some p →
      nxt < off →
      Chain buf lo hi nxt ps →
      Chain buf lo hi off (p :: ps)

/-- The engine invariant for a buffer holding an `n`-slot table built by the
write list `ws` (in chronological order). -/
structure QuackInv (buf : List Nat) (n : Nat) (ws : List (Nat × List Nat)) : Prop where
  len_lt : buf.length < u64Bound
  hn : read_num_slots buf = some n
  hss : 16 + 8 * n < u64Bound
  hL : read_store_len buf = some (wsSize ws)
  cap : 16 + 8 * n + wsSize ws ≤ buf.length
  slots : ∀ b, b < n → ∃ head, read_slot buf b = some head ∧
    Chain buf (16 + 8 * n) (16 + 8 * n + wsSize ws) head (bucketEntries n b ws).reverse
  nz : n = 0 → ws = []
/-- The net effect of a successful `Quack::write` on the buffer: node bytes
appended at the allocation cursor, the bucket's slot updated to the new head,
and the `store_len` header field bumped. -/
def writeResult (buf : List Nat) (k : Nat) (v : List Nat) (n L : Nat) : List Nat :=
  setRange (setRange (setRange buf (L + (16 + n * 8))
      (toBE8 (be_combine (getSlice buf ((k % n) * 8 + 16) 8)) ++ toBE8 v.length ++ v))
      ((k % n) * 8 + 16) (toBE8 (L + (16 + n * 8))))
      8 (toBE8 ((16 + v.length) + L))

/-- The two writes of the spec's concrete scenario: `(0, "hello")`, `(0, "world")`. -/
def hwWrites : List (Nat × List Nat) :=
  [(0, [104, 101, 108, 108, 111]), (0, [119, 111, 114, 108, 100])]

/-- A single write `(0, "hello")`. -/
def oneWrite : List (Nat × List Nat) := [(0, [104, 101, 108, 108, 111])]

/-- Tags every payload of a list with the bucket index used as its key. -/
def tagKey (b : Nat) (l : List (List Nat)) : List (Nat × List Nat) :=
  l.map (fun p => (b, p))

/-- The write list performed by the optimize pass on its destination: for each
bucket index in order, the source chain's payloads in the order read. -/
def destWrites (n : Nat) (ws : List (Nat × List Nat)) : List Nat → List (Nat × List Nat)
  | [] => []
  | b :: bs => tagKey b (bucketEntries n b ws).reverse ++ destWrites n ws bs

/-! ### Arithmetic and slice infrastructure -/

lemma checked_add_eq_some {a b : Nat} (h : a + b < u64Bound) :
    checked_add a b = some (a + b) := by simp [checked_add, h]

lemma checked_add_eq_none {a b : Nat} (h : u64Bound ≤ a + b) :
    checked_add a b = none := by simp [checked_add]; omega

lemma checked_mul_eq_some {a b : Nat} (h : a * b < u64Bound) :
    checked_mul a b = some (a * b) := by simp [checked_mul, h]

lemma checked_rem_eq_some {a b : Nat} (h : 0 < b) :
    checked_rem a b = some (a % b) := by simp [checked_rem]; omega

lemma length_setRange {l m : List Nat} {s : Nat} (h : s + m.length ≤ l.length) :
    (setRange l s m).length = l.length := by
  simp [setRange]; omega

lemma getElem?_setRange_lt {l m : List Nat} {s i : Nat} (h : s + m.length ≤ l.length)
    (hi : i < s) : (setRange l s m)[i]? = l[i]? := by
  unfold setRange
  rw [List.append_assoc, List.getElem?_append_left, List.getElem?_take]
  · simp [hi]
  · simp [List.length_take]; omega

lemma getElem?_setRange_mid {l m : List Nat} {s i : Nat} (h : s + m.length ≤ l.length)
    (h1 : s ≤ i) (h2 : i < s + m.length) : (setRange l s m)[i]? = m[i - s]? := by
  unfold setRange
  rw [List.append_assoc, List.getElem?_append_right, List.getElem?_append_left]
  · congr 1
    simp [List.length_take]
    omega
  · simp [List.length_take]
    omega
  · simp [List.length_take]
    omega

lemma getElem?_setRange_ge {l m : List Nat} {s i : Nat} (h : s + m.length ≤ l.length)
    (hi : s + m.length ≤ i) : (setRange l s m)[i]? = l[i]? := by
  unfold setRange
  rw [List.append_assoc, List.getElem?_append_right, List.getElem?_append_right]
  · rw [List.getElem?_drop]
    congr 1
    simp [List.length_take]
    omega
  · simp [List.length_take]; omega
  · simp [List.length_take]; omega

lemma getSlice_getElem? (l : List Nat) (a n i : Nat) :
    (getSlice l a n)[i]? = if i < n then l[a + i]? else none := by
  unfold getSlice
  rw [List.getElem?_take]
  split
  · rw [List.getElem?_drop]
  · rfl

lemma getSlice_congr {l l2 : List Nat} {a n : Nat}
    (h : ∀ i, a ≤ i → i < a + n → l[i]? = l2[i]?) :
    getSlice l a n = getSlice l2 a n := by
  apply List.ext_getElem?
  intro i
  rw [getSlice_getElem?, getSlice_getElem?]
  split
  · exact h (a + i) (by omega) (by omega)
  · rfl

lemma length_getSlice (l : List Nat) (a n : Nat) (h : a + n ≤ l.length) :
    (getSlice l a n).length = n := by
  simp [getSlice]; omega

lemma getSlice_setRange_self {l m : List Nat} {s : Nat} (h : s + m.length ≤ l.length) :
    getSlice (setRange l s m) s m.length = m := by
  apply List.ext_getElem?
  intro i
  rw [getSlice_getElem?]
  split
  · rw [getElem?_setRange_mid h (by omega) (by omega)]
    congr 1
    omega
  · exact (List.getElem?_eq_none (by omega)).symm

lemma getSlice_setRange_within {l m : List Nat} {s a n : Nat} (h : s + m.length ≤ l.length)
    (h1 : s ≤ a) (h2 : a + n ≤ s + m.length) :
    getSlice (setRange l s m) a n = getSlice m (a - s) n := by
  apply List.ext_getElem?
  intro i
  rw [getSlice_getElem?, getSlice_getElem?]
  split
  · rw [getElem?_setRange_mid h (by omega) (by omega)]
    congr 1
    omega
  · rfl

lemma setRange_setRange_adj {l m1 m2 : List Nat} {s : Nat}
    (h : s + m1.length + m2.length ≤ l.length) :
    setRange (setRange l s m1) (s + m1.length) m2 = setRange l s (m1 ++ m2) := by
  have hl1 : s + m1.length ≤ l.length := by omega
  have hl2 : s + m1.length + m2.length ≤ (setRange l s m1).length := by
    rw [length_setRange hl1]; omega
  have hl3 : s + (m1 ++ m2).length ≤ l.length := by simp; omega
  apply List.ext_getElem?
  intro i
  by_cases c1 : i < s
  · rw [getElem?_setRange_lt hl2 (by omega), getElem?_setRange_lt hl1 c1,
      getElem?_setRange_lt hl3 c1]
  · by_cases c2 : i < s + m1.length
    · rw [getElem?_setRange_lt hl2 (by omega), getElem?_setRange_mid hl1 (by omega) c2,
        getElem?_setRange_mid hl3 (by omega) (by simp; omega)]
      rw [List.getElem?_append_left (by omega)]
    · by_cases c3 : i < s + m1.length + m2.length
      · rw [getElem?_setRange_mid hl2 (by omega) (by omega),
          getElem?_setRange_mid hl3 (by omega) (by simp; omega)]
        rw [List.getElem?_append_right (by omega)]
        congr 1
        omega
      · rw [getElem?_setRange_ge hl2 (by omega), getElem?_setRange_ge hl1 (by omega),
          getElem?_setRange_ge hl3 (by simp; omega)]

/-! ### Byte codec lemmas -/

lemma length_toBE8 (v : Nat) : (toBE8 v).length = 8 := rfl

lemma be_combine_toBE8 (v : Nat) : be_combine (toBE8 v) = v % u64Bound := by
  simp only [be_combine, toBE8, List.foldl, u64Bound]
  omega

lemma be_combine_toBE8_of_lt {v : Nat} (h : v < u64Bound) :
    be_combine (toBE8 v) = v := by
  rw [be_combine_toBE8]; exact Nat.mod_eq_of_lt h

lemma toBE8_zero : toBE8 0 = List.replicate 8 0 := by decide

lemma be_combine_zeros : be_combine (List.replicate 8 0) = 0 := by decide

/-! ### Evaluation lemmas for the byte-access primitives -/

lemma get_range_dynamic_eq_some {data : List Nat} {start len : Nat}
    (h1 : start + len ≤ data.length) (h2 : start + len < u64Bound) :
    get_range_dynamic data start len = some (getSlice data start len) := by
  unfold get_range_dynamic
  rw [checked_add_eq_some h2]
  simp [h1]

lemma get_range_dynamic_isSome_iff (data : List Nat) (start len : Nat) :
    (get_range_dynamic data start len).isSome ↔
      start + len < u64Bound ∧ start + len ≤ data.length := by
  unfold get_range_dynamic
  by_cases h1 : start + len < u64Bound
  · rw [checked_add_eq_some h1]
    by_cases h2 : start + len ≤ data.length <;> simp [h1, h2]
  · rw [checked_add_eq_none (by omega)]
    simp [h1]

lemma read_u64_eq_some {data : List Nat} {start : Nat}
    (h1 : start + 8 ≤ data.length) (h2 : start + 8 < u64Bound) :
    read_u64 data start = some (be_combine (getSlice data start 8)) := by
  unfold read_u64
  rw [get_range_dynamic_eq_some h1 h2]

lemma read_u64_isSome_iff (data : List Nat) (start : Nat) :
    (read_u64 data start).isSome ↔ start + 8 < u64Bound ∧ start + 8 ≤ data.length := by
  rw [← get_range_dynamic_isSome_iff]
  unfold read_u64
  rcases get_range_dynamic data start 8 with _ | raw <;> simp

lemma write_u64_eq_some {data : List Nat} {start v : Nat}
    (h1 : start + 8 ≤ data.length) (h2 : start + 8 < u64Bound) :
    write_u64 data start v = some (setRange data start (toBE8 v)) := by
  unfold write_u64
  rw [checked_add_eq_some h2]
  simp [h1]

lemma write_u64_isSome_iff (data : List Nat) (start v : Nat) :
    (write_u64 data start v).isSome ↔ start + 8 < u64Bound ∧ start + 8 ≤ data.length := by
  unfold write_u64
  by_cases h1 : start + 8 < u64Bound
  · rw [checked_add_eq_some h1]
    by_cases h2 : start + 8 ≤ data.length <;> simp [h1, h2]
  · rw [checked_add_eq_none (by omega)]
    simp [h1]

lemma write_range_eq_some {data : List Nat} {start : Nat} {buf : List Nat}
    (h1 : start + buf.length ≤ data.length) (h2 : start + buf.length < u64Bound) :
    write_range data start buf = some (setRange data start buf) := by
  unfold write_range
  rw [checked_add_eq_some h2]
  simp [h1]

lemma write_range_isSome_iff (data : List Nat) (start : Nat) (buf : List Nat) :
    (write_range data start buf).isSome ↔
      start + buf.length < u64Bound ∧ start + buf.length ≤ data.length := by
  unfold write_range
  by_cases h1 : start + buf.length < u64Bound
  · rw [checked_add_eq_some h1]
    by_cases h2 : start + buf.length ≤ data.length <;> simp [h1, h2]
  · rw [checked_add_eq_none (by omega)]
    simp [h1]

lemma read_u64_congr {l l2 : List Nat} {a : Nat} (hlen : l.length = l2.length)
    (hag : ∀ i, a ≤ i → i < a + 8 → l[i]? = l2[i]?) :
    read_u64 l a = read_u64 l2 a := by
  by_cases h : a + 8 ≤ l.length ∧ a + 8 < u64Bound
  · rw [read_u64_eq_some h.1 h.2, read_u64_eq_some (hlen ▸ h.1) h.2,
      getSlice_congr hag]
  · have h1 : read_u64 l a = none := by
      rcases hr : read_u64 l a with _ | x
      · rfl
      · have := (read_u64_isSome_iff l a).mp (by simp [hr])
        omega
    have h2 : read_u64 l2 a = none := by
      rcases hr : read_u64 l2 a with _ | x
      · rfl
      · have := (read_u64_isSome_iff l2 a).mp (by simp [hr])
        omega
    rw [h1, h2]

lemma get_range_dynamic_congr {l l2 : List Nat} {a n : Nat} (hlen : l.length = l2.length)
    (hag : ∀ i, a ≤ i → i < a + n → l[i]? = l2[i]?) :
    get_range_dynamic l a n = get_range_dynamic l2 a n := by
  by_cases h : a + n ≤ l.length ∧ a + n < u64Bound
  · rw [get_range_dynamic_eq_some h.1 h.2, get_range_dynamic_eq_some (hlen ▸ h.1) h.2,
      getSlice_congr hag]
  · have h1 : get_range_dynamic l a n = none := by
      rcases hr : get_range_dynamic l a n with _ | x
      · rfl
      · have := (get_range_dynamic_isSome_iff l a n).mp (by simp [hr])
        omega
    have h2 : get_range_dynamic l2 a n = none := by
      rcases hr : get_range_dynamic l2 a n with _ | x
      · rfl
      · have := (get_range_dynamic_isSome_iff l2 a n).mp (by simp [hr])
        omega
    rw [h1, h2]

/-! ### Store accessor evaluation lemmas -/

lemma read_slot_eq_some {data : List Nat} {b : Nat} (hb : b * 8 + 16 + 8 ≤ data.length)
    (hw : b * 8 + 16 + 8 < u64Bound) :
    read_slot data b = some (be_combine (getSlice data (b * 8 + 16) 8)) := by
  have h1 : checked_mul b 8 = some (b * 8) := checked_mul_eq_some (by omega)
  have h2 : checked_add (b * 8) 16 = some (b * 8 + 16) := checked_add_eq_some (by omega)
  have h3 : read_u64 data (b * 8 + 16) = some (be_combine (getSlice data (b * 8 + 16) 8)) :=
    read_u64_eq_some (by omega) (by omega)
  simp only [read_slot, h1, h2, h3]

lemma write_slot_eq_some {data : List Nat} {b v : Nat} (hb : b * 8 + 16 + 8 ≤ data.length)
    (hw : b * 8 + 16 + 8 < u64Bound) :
    write_slot data b v = some (setRange data (b * 8 + 16) (toBE8 v)) := by
  have h1 : checked_mul b 8 = some (b * 8) := checked_mul_eq_some (by omega)
  have h2 : checked_add (b * 8) 16 = some (b * 8 + 16) := checked_add_eq_some (by omega)
  have h3 : write_u64 data (b * 8 + 16) v = some (setRange data (b * 8 + 16) (toBE8 v)) :=
    write_u64_eq_some (by omega) (by omega)
  simp only [write_slot, h1, h2, h3]

lemma store_start_eq_some {n : Nat} (h : 16 + n * 8 < u64Bound) :
    store_start n = some (16 + n * 8) := by
  have h1 : checked_mul n 8 = some (n * 8) := checked_mul_eq_some (by omega)
  have h2 : checked_add 16 (n * 8) = some (16 + n * 8) := checked_add_eq_some (by omega)
  simp only [store_start, h1, h2]

lemma read_num_slots_congr {l l2 : List Nat} (hlen : l.length = l2.length)
    (hag : ∀ i, i < 8 → l[i]? = l2[i]?) :
    read_num_slots l = read_num_slots l2 :=
  read_u64_congr hlen (fun i _ h2 => hag i (by omega))

/-! ### Chain lemmas -/

lemma Chain.mono_hi {buf : List Nat} {lo hi hi2 off : Nat} {ps : List (List Nat)}
    (h : Chain buf lo hi off ps) (hh : hi ≤ hi2) : Chain buf lo hi2 off ps := by
  induction h with
  | nil => exact Chain.nil
  | cons h1 h2 h3 h4 h5 h6 h7 _ ih =>
    exact Chain.cons h1 h2 (by omega) h4 h5 h6 h7 ih

lemma Chain.congr {buf buf2 : List Nat} {lo hi off : Nat} {ps : List (List Nat)}
    (h : Chain buf lo hi off ps) (hlen : buf.length = buf2.length)
    (hag : ∀ i, lo ≤ i → i < hi → buf[i]? = buf2[i]?) : Chain buf2 lo hi off ps := by
  induction h with
  | nil => exact Chain.nil
  | @cons off nxt p ps h1 h2 h3 h4 h5 h6 h7 _ ih =>
    refine Chain.cons h1 h2 h3 ?_ ?_ ?_ h7 ih
    · rw [← read_u64_congr hlen (fun i hi1 hi2 => hag i (by omega) (by omega))]
      exact h4
    · rw [← read_u64_congr hlen (fun i hi1 hi2 => hag i (by omega) (by omega))]
      exact h5
    · rw [← get_range_dynamic_congr hlen (fun i hi1 hi2 => hag i (by omega) (by omega))]
      exact h6

lemma Chain.head_bound {buf : List Nat} {lo hi off : Nat} {ps : List (List Nat)}
    (h : Chain buf lo hi off ps) : off = 0 ∨ (lo ≤ off ∧ off ≠ 0 ∧ off + 16 ≤ hi) := by
  cases h with
  | nil => exact Or.inl rfl
  | cons h1 h2 h3 h4 h5 h6 h7 h8 => exact Or.inr ⟨h2, h1, by omega⟩

lemma Chain.length_le {buf : List Nat} {lo hi off : Nat} {ps : List (List Nat)}
    (h : Chain buf lo hi off ps) : ps.length ≤ off := by
  induction h with
  | nil => simp
  | cons h1 h2 h3 h4 h5 h6 h7 _ ih => simp; omega

lemma chain_seqTake {buf : List Nat} {lo hi off : Nat} {ps : List (List Nat)}
    (hhi : hi ≤ buf.length) (hlen : buf.length < u64Bound)
    (h : Chain buf lo hi off ps) :
    ∀ fuel, ps.length ≤ fuel → seqTake fuel ⟨buf, off⟩ = ps := by
  induction h with
  | nil =>
    intro fuel _
    cases fuel with
    | zero => rfl
    | succ f => simp [seqTake, Sequence.tryNext]
  | @cons off nxt p ps h1 h2 h3 h4 h5 h6 h7 h8 ih =>
    intro fuel hfuel
    cases fuel with
    | zero => simp at hfuel
    | succ f =>
      have hoff : off + 16 + p.length < u64Bound := by omega
      have htn : Sequence.tryNext ⟨buf, off⟩ = some (some (p, ⟨buf, nxt⟩)) := by
        have c1 : checked_add 0 off = some off := by
          rw [checked_add_eq_some (by omega)]
          simp
        have c2 : checked_add 8 off = some (8 + off) := checked_add_eq_some (by omega)
        have c3 : checked_add 16 off = some (16 + off) := checked_add_eq_some (by omega)
        simp only [Sequence.tryNext, h1, if_false, c1, c2, c3, h4, h5, h6]
      simp only [seqTake, htn]
      have : ps.length ≤ f := by simp at hfuel; omega
      rw [ih f this]

lemma chain_collect {buf : List Nat} {lo hi off : Nat} {ps : List (List Nat)}
    (hhi : hi ≤ buf.length) (hlen : buf.length < u64Bound)
    (h : Chain buf lo hi off ps) :
    Sequence.collect ⟨buf, off⟩ = ps := by
  unfold Sequence.collect
  exact chain_seqTake hhi hlen h (off + 1) (by have := h.length_le; simp at this ⊢; omega)

/-! ### Evaluation of the write path -/

lemma store_start_eq_none {n : Nat} (h : u64Bound ≤ 16 + n * 8) :
    store_start n = none := by
  unfold store_start
  by_cases h8 : n * 8 < u64Bound
  · rw [checked_mul_eq_some h8]
    exact checked_add_eq_none (by omega)
  · rw [show checked_mul n 8 = none by simp [checked_mul]; omega]

lemma val_write_eq {l : List Nat} {start nxt : Nat} {p : List Nat}
    (hb : start + 16 + p.length ≤ l.length) (hw : start + 16 + p.length < u64Bound) :
    val_write l start nxt p =
      (setRange l start (toBE8 nxt ++ toBE8 p.length ++ p), true) := by
  have c1 : checked_add 0 start = some start := by
    rw [checked_add_eq_some (by omega)]; simp
  have w1 : write_u64 l start nxt = some (setRange l start (toBE8 nxt)) :=
    write_u64_eq_some (by omega) (by omega)
  have hlen1 : (setRange l start (toBE8 nxt)).length = l.length :=
    length_setRange (by rw [length_toBE8]; omega)
  have c2 : checked_add 8 start = some (8 + start) := checked_add_eq_some (by omega)
  have w2 : write_u64 (setRange l start (toBE8 nxt)) (8 + start) p.length =
      some (setRange (setRange l start (toBE8 nxt)) (8 + start) (toBE8 p.length)) :=
    write_u64_eq_some (by rw [hlen1]; omega) (by omega)
  have hd2 : setRange (setRange l start (toBE8 nxt)) (8 + start) (toBE8 p.length) =
      setRange l start (toBE8 nxt ++ toBE8 p.length) := by
    have e : 8 + start = start + (toBE8 nxt).length := by rw [length_toBE8]; omega
    rw [e]
    exact setRange_setRange_adj (by simp [length_toBE8]; omega)
  have hlen2 : (setRange l start (toBE8 nxt ++ toBE8 p.length)).length = l.length :=
    length_setRange (by simp [length_toBE8]; omega)
  have c3 : checked_add 16 start = some (16 + start) := checked_add_eq_some (by omega)
  have w3 : write_range (setRange l start (toBE8 nxt ++ toBE8 p.length)) (16 + start) p =
      some (setRange (setRange l start (toBE8 nxt ++ toBE8 p.length)) (16 + start) p) :=
    write_range_eq_some (by rw [hlen2]; omega) (by omega)
  have hd3 : setRange (setRange l start (toBE8 nxt ++ toBE8 p.length)) (16 + start) p =
      setRange l start (toBE8 nxt ++ toBE8 p.length ++ p) := by
    have e : 16 + start = start + (toBE8 nxt ++ toBE8 p.length).length := by
      simp [length_toBE8]; omega
    rw [e]
    exact setRange_setRange_adj (by simp [length_toBE8]; omega)
  simp only [val_write, c1, w1, c2, w2, hd2, c3, w3, hd3]


lemma length_writeResult {buf : List Nat} {k n L : Nat} {v : List Nat}
    (hpos : 0 < n)
    (hreq : 16 + n * 8 + ((16 + v.length) + L) ≤ buf.length) :
    (writeResult buf k v n L).length = buf.length := by
  have hmod : k % n < n := Nat.mod_lt _ hpos
  unfold writeResult
  have l1 : (setRange buf (L + (16 + n * 8))
      (toBE8 (be_combine (getSlice buf ((k % n) * 8 + 16) 8)) ++ toBE8 v.length ++ v)).length
      = buf.length := length_setRange (by simp [length_toBE8]; omega)
  have l2 := length_setRange (l := setRange buf (L + (16 + n * 8))
      (toBE8 (be_combine (getSlice buf ((k % n) * 8 + 16) 8)) ++ toBE8 v.length ++ v))
      (s := (k % n) * 8 + 16) (m := toBE8 (L + (16 + n * 8)))
      (by rw [l1, length_toBE8]; omega)
  rw [length_setRange (by rw [l2, l1, length_toBE8]; omega), l2, l1]

lemma write_ok_spec {buf : List Nat} {k n L : Nat} {v : List Nat}
    (hn : read_num_slots buf = some n) (hL : read_store_len buf = some L)
    (hpos : 0 < n)
    (h64 : 16 + n * 8 + ((16 + v.length) + L) < u64Bound)
    (hcap : 16 + n * 8 + ((16 + v.length) + L) ≤ buf.length) :
    Quack.write buf k v = (writeResult buf k v n L, true) := by
  have hmod : k % n < n := Nat.mod_lt _ hpos
  have hrem : checked_rem k n = some (k % n) := checked_rem_eq_some hpos
  have c1 : checked_add 16 v.length = some (16 + v.length) := checked_add_eq_some (by omega)
  have c2 : checked_add (16 + v.length) L = some ((16 + v.length) + L) :=
    checked_add_eq_some (by omega)
  have hssv : store_start n = some (16 + n * 8) := store_start_eq_some (by omega)
  have c3 : checked_add (16 + n * 8) ((16 + v.length) + L) =
      some (16 + n * 8 + ((16 + v.length) + L)) := checked_add_eq_some (by omega)
  have hif : ¬ (16 + n * 8 + ((16 + v.length) + L) > buf.length) := by omega
  have hrs : read_slot buf (k % n) =
      some (be_combine (getSlice buf ((k % n) * 8 + 16) 8)) :=
    read_slot_eq_some (by omega) (by omega)
  have c4 : checked_add L (16 + n * 8) = some (L + (16 + n * 8)) :=
    checked_add_eq_some (by omega)
  have hvw := @val_write_eq buf (L + (16 + n * 8))
    (be_combine (getSlice buf ((k % n) * 8 + 16) 8)) v
    (by omega) (by omega)
  have l1 : (setRange buf (L + (16 + n * 8))
      (toBE8 (be_combine (getSlice buf ((k % n) * 8 + 16) 8)) ++ toBE8 v.length ++ v)).length
      = buf.length := length_setRange (by simp [length_toBE8]; omega)
  have hws : write_slot (setRange buf (L + (16 + n * 8))
      (toBE8 (be_combine (getSlice buf ((k % n) * 8 + 16) 8)) ++ toBE8 v.length ++ v))
      (k % n) (L + (16 + n * 8)) =
      some (setRange (setRange buf (L + (16 + n * 8))
        (toBE8 (be_combine (getSlice buf ((k % n) * 8 + 16) 8)) ++ toBE8 v.length ++ v))
        ((k % n) * 8 + 16) (toBE8 (L + (16 + n * 8)))) :=
    write_slot_eq_some (by rw [l1]; omega) (by omega)
  have l2 : (setRange (setRange buf (L + (16 + n * 8))
      (toBE8 (be_combine (getSlice buf ((k % n) * 8 + 16) 8)) ++ toBE8 v.length ++ v))
      ((k % n) * 8 + 16) (toBE8 (L + (16 + n * 8)))).length = buf.length := by
    rw [length_setRange (by rw [l1, length_toBE8]; omega), l1]
  have hwsl : write_store_len (setRange (setRange buf (L + (16 + n * 8))
      (toBE8 (be_combine (getSlice buf ((k % n) * 8 + 16) 8)) ++ toBE8 v.length ++ v))
      ((k % n) * 8 + 16) (toBE8 (L + (16 + n * 8)))) ((16 + v.length) + L) =
      some (writeResult buf k v n L) := by
    unfold write_store_len writeResult
    exact write_u64_eq_some (by rw [l2]; omega) (by omega)
  simp only [Quack.write, hn, hL, hrem, c1, c2, hssv, c3]
  rw [if_neg hif]
  simp only [hrs, c4, hvw, hws, hwsl]

lemma write_fail_of_conditions {buf : List Nat} {k n L : Nat} {v : List Nat}
    (hn : read_num_slots buf = some n) (hL : read_store_len buf = some L)
    (hbad : ¬ (0 < n ∧ 16 + n * 8 + ((16 + v.length) + L) < u64Bound ∧
      16 + n * 8 + ((16 + v.length) + L) ≤ buf.length)) :
    Quack.write buf k v = (buf, false) := by
  by_cases hpos : 0 < n
  · by_cases h1 : 16 + v.length < u64Bound
    · have c1 : checked_add 16 v.length = some (16 + v.length) := checked_add_eq_some h1
      by_cases h2 : (16 + v.length) + L < u64Bound
      · have c2 : checked_add (16 + v.length) L = some ((16 + v.length) + L) :=
          checked_add_eq_some h2
        by_cases h3 : 16 + n * 8 < u64Bound
        · have hssv : store_start n = some (16 + n * 8) := store_start_eq_some h3
          by_cases h4 : 16 + n * 8 + ((16 + v.length) + L) < u64Bound
          · have c3 : checked_add (16 + n * 8) ((16 + v.length) + L) =
                some (16 + n * 8 + ((16 + v.length) + L)) := checked_add_eq_some h4
            have hcap : ¬ (16 + n * 8 + ((16 + v.length) + L) ≤ buf.length) := by
              intro hc; exact hbad ⟨hpos, h4, hc⟩
            simp only [Quack.write, hn, hL, checked_rem_eq_some hpos, c1, c2, hssv, c3]
            rw [if_pos (by omega)]
          · have c3 : checked_add (16 + n * 8) ((16 + v.length) + L) = none :=
              checked_add_eq_none (by omega)
            simp only [Quack.write, hn, hL, checked_rem_eq_some hpos, c1, c2, hssv, c3]
        · have hssv : store_start n = none := store_start_eq_none (by omega)
          simp only [Quack.write, hn, hL, checked_rem_eq_some hpos, c1, c2, hssv]
      · have c2 : checked_add (16 + v.length) L = none := checked_add_eq_none (by omega)
        simp only [Quack.write, hn, hL, checked_rem_eq_some hpos, c1, c2]
    · have c1 : checked_add 16 v.length = none := checked_add_eq_none (by omega)
      simp only [Quack.write, hn, hL, checked_rem_eq_some hpos, c1]
  · have hrem : checked_rem k n = none := by
      simp [checked_rem]; omega
    simp only [Quack.write, hn, hL, hrem]

lemma write_total_cases (buf : List Nat) (k : Nat) (v : List Nat) :
    Quack.write buf k v = (buf, false) ∨
      ((Quack.write buf k v).2 = true ∧ (Quack.write buf k v).1.length = buf.length) := by
  cases hn : read_num_slots buf with
  | none => exact Or.inl (by simp only [Quack.write, hn])
  | some n =>
    cases hL : read_store_len buf with
    | none => exact Or.inl (by simp only [Quack.write, hn, hL])
    | some L =>
      by_cases hcond : 0 < n ∧ 16 + n * 8 + ((16 + v.length) + L) < u64Bound ∧
          16 + n * 8 + ((16 + v.length) + L) ≤ buf.length
      · right
        rw [write_ok_spec hn hL hcond.1 hcond.2.1 hcond.2.2]
        exact ⟨rfl, length_writeResult hcond.1 hcond.2.2⟩
      · exact Or.inl (write_fail_of_conditions hn hL hcond)

lemma write_ok_iff {buf : List Nat} {k n L : Nat} {v : List Nat}
    (hn : read_num_slots buf = some n) (hL : read_store_len buf = some L) :
    (Quack.write buf k v).2 = true ↔
      0 < n ∧ 16 + n * 8 + ((16 + v.length) + L) < u64Bound ∧
        16 + n * 8 + ((16 + v.length) + L) ≤ buf.length := by
  constructor
  · intro hok
    by_contra hbad
    rw [write_fail_of_conditions hn hL hbad] at hok
    simp at hok
  · intro h
    rw [write_ok_spec hn hL h.1 h.2.1 h.2.2]

/-! ### Initialization -/

lemma getSlice_setRange_self8 {l : List Nat} {s v : Nat} (h : s + 8 ≤ l.length) :
    getSlice (setRange l s (toBE8 v)) s 8 = toBE8 v := by
  have := getSlice_setRange_self (l := l) (s := s) (m := toBE8 v)
    (by rw [length_toBE8]; omega)
  rwa [length_toBE8] at this

lemma read_u64_setRange_toBE8 {l : List Nat} {s v : Nat} (h : s + 8 ≤ l.length)
    (h64 : s + 8 < u64Bound) :
    read_u64 (setRange l s (toBE8 v)) s = some (v % u64Bound) := by
  have hlen : (setRange l s (toBE8 v)).length = l.length :=
    length_setRange (by rw [length_toBE8]; omega)
  rw [read_u64_eq_some (by rw [hlen]; omega) h64, getSlice_setRange_self8 h,
    be_combine_toBE8]

lemma getSlice_replicate {m a nn : Nat} (h : a + nn ≤ m) :
    getSlice (List.replicate m 0) a nn = List.replicate nn 0 := by
  apply List.ext_getElem?
  intro i
  rw [getSlice_getElem?, List.getElem?_replicate, List.getElem?_replicate]
  by_cases hi : i < nn
  · simp [hi]; omega
  · simp [hi]

lemma init_eq_some_general {data : List Nat} {n : Nat} (h64 : 16 + n * 8 < u64Bound)
    (hm : 16 + n * 8 ≤ data.length) :
    init_assume_zeroed data n =
      some (setRange (setRange data 8 (toBE8 0)) 0 (toBE8 n)) := by
  have hssv : store_start n = some (16 + n * 8) := store_start_eq_some h64
  have hif : ¬ (data.length < 16 + n * 8) := by omega
  have w1 : write_store_len data 0 = some (setRange data 8 (toBE8 0)) :=
    write_u64_eq_some (by omega) (by omega)
  have hlen1 : (setRange data 8 (toBE8 0)).length = data.length :=
    length_setRange (by rw [length_toBE8]; omega)
  have w2 : write_num_slots (setRange data 8 (toBE8 0)) n =
      some (setRange (setRange data 8 (toBE8 0)) 0 (toBE8 n)) :=
    write_u64_eq_some (by rw [hlen1]; omega) (by omega)
  simp only [init_assume_zeroed, hssv, if_neg hif, w1, w2]

lemma init_isSome_iff (data : List Nat) (n : Nat) :
    (init_assume_zeroed data n).isSome ↔
      16 + n * 8 < u64Bound ∧ 16 + n * 8 ≤ data.length := by
  by_cases h64 : 16 + n * 8 < u64Bound
  · by_cases hm : 16 + n * 8 ≤ data.length
    · rw [init_eq_some_general h64 hm]
      simp [h64, hm]
    · have hssv : store_start n = some (16 + n * 8) := store_start_eq_some h64
      simp only [init_assume_zeroed, hssv, if_pos (show data.length < 16 + n * 8 by omega)]
      simp [hm]
  · have hssv : store_start n = none := store_start_eq_none (by omega)
    simp only [init_assume_zeroed, hssv]
    simp [h64]

lemma init_length {data buf : List Nat} {n : Nat}
    (h : init_assume_zeroed data n = some buf) : buf.length = data.length := by
  have hsome : (init_assume_zeroed data n).isSome := by simp [h]
  obtain ⟨h64, hm⟩ := (init_isSome_iff data n).mp hsome
  rw [init_eq_some_general h64 hm] at h
  injection h with h
  subst h
  have hlen1 : (setRange data 8 (toBE8 0)).length = data.length :=
    length_setRange (by rw [length_toBE8]; omega)
  rw [length_setRange (by rw [length_toBE8, hlen1]; omega), hlen1]

lemma init_header {data buf : List Nat} {n : Nat}
    (h : init_assume_zeroed data n = some buf) :
    read_num_slots buf = some n ∧ read_store_len buf = some 0 := by
  have hsome : (init_assume_zeroed data n).isSome := by simp [h]
  obtain ⟨h64, hm⟩ := (init_isSome_iff data n).mp hsome
  rw [init_eq_some_general h64 hm] at h
  injection h with h
  subst h
  have hlen1 : (setRange data 8 (toBE8 0)).length = data.length :=
    length_setRange (by rw [length_toBE8]; omega)
  constructor
  · unfold read_num_slots
    have := read_u64_setRange_toBE8 (l := setRange data 8 (toBE8 0)) (s := 0) (v := n)
      (by rw [hlen1]; omega) (by omega)
    simp only [Nat.zero_add] at this ⊢
    rw [this]
    congr 1
    exact Nat.mod_eq_of_lt (by omega)
  · unfold read_store_len
    have hag : ∀ i, 8 ≤ i → i < 8 + 8 →
        (setRange (setRange data 8 (toBE8 0)) 0 (toBE8 n))[i]? =
          (setRange data 8 (toBE8 0))[i]? := by
      intro i h1 h2
      exact getElem?_setRange_ge (by rw [length_toBE8, hlen1]; omega)
        (by rw [length_toBE8]; omega)
    have hlen2 : (setRange (setRange data 8 (toBE8 0)) 0 (toBE8 n)).length =
        (setRange data 8 (toBE8 0)).length :=
      length_setRange (by rw [length_toBE8, hlen1]; omega)
    rw [read_u64_congr hlen2 hag]
    have := read_u64_setRange_toBE8 (l := data) (s := 8) (v := 0)
      (by omega) (by omega)
    rw [this]
    simp

lemma wsSize_nil : wsSize [] = 0 := rfl

lemma wsSize_append (ws1 ws2 : List (Nat × List Nat)) :
    wsSize (ws1 ++ ws2) = wsSize ws1 + wsSize ws2 := by
  simp [wsSize]

lemma bucketEntries_nil (n b : Nat) : bucketEntries n b [] = [] := rfl

lemma inv_init {m n : Nat} {buf : List Nat} (hm : m < u64Bound)
    (h : init_assume_zeroed (List.replicate m 0) n = some buf) :
    QuackInv buf n [] := by
  have hsome : (init_assume_zeroed (List.replicate m 0) n).isSome := by simp [h]
  obtain ⟨h64, hmr⟩ := (init_isSome_iff _ n).mp hsome
  rw [List.length_replicate] at hmr
  obtain ⟨hhn, hhL⟩ := init_header h
  have hlenb : buf.length = m := by rw [init_length h, List.length_replicate]
  have hform := @init_eq_some_general (List.replicate m 0) n h64
    (by rw [List.length_replicate]; omega)
  rw [hform] at h
  injection h with h
  have hlen1 : (setRange (List.replicate m 0) 8 (toBE8 0)).length = m :=
    by rw [length_setRange (by rw [length_toBE8, List.length_replicate]; omega),
      List.length_replicate]
  refine ⟨by omega, hhn, by omega, by rw [hhL]; rfl, by rw [hlenb]; simp [wsSize_nil]; omega,
    ?_, fun _ => rfl⟩
  intro b hb
  refine ⟨0, ?_, by rw [bucketEntries_nil]; exact Chain.nil⟩
  have hread : read_slot buf b = some (be_combine (getSlice buf (b * 8 + 16) 8)) :=
    read_slot_eq_some (by rw [hlenb]; omega) (by omega)
  rw [hread]
  congr 1
  have hag : ∀ i, b * 8 + 16 ≤ i → i < b * 8 + 16 + 8 →
      buf[i]? = (List.replicate m 0)[i]? := by
    intro i h1 h2
    rw [← h]
    rw [getElem?_setRange_ge (by rw [length_toBE8, hlen1]; omega) (by rw [length_toBE8]; omega)]
    rw [getElem?_setRange_ge (by rw [length_toBE8, List.length_replicate]; omega)
      (by rw [length_toBE8]; omega)]
  rw [getSlice_congr hag, getSlice_replicate (by omega)]
  exact be_combine_zeros

/-! ### Invariant preservation under a successful write -/

lemma getSlice_node_0 (a c : Nat) (p : List Nat) :
    getSlice (toBE8 a ++ toBE8 c ++ p) 0 8 = toBE8 a := rfl

lemma getSlice_node_8 (a c : Nat) (p : List Nat) :
    getSlice (toBE8 a ++ toBE8 c ++ p) 8 8 = toBE8 c := rfl

lemma getSlice_node_16 (a c : Nat) (p : List Nat) :
    getSlice (toBE8 a ++ toBE8 c ++ p) 16 p.length = p := by
  show p.take p.length = p
  exact List.take_length p

lemma bucketEntries_append_hit {n k : Nat} {v : List Nat} (ws : List (Nat × List Nat)) :
    bucketEntries n (k % n) (ws ++ [(k, v)]) = bucketEntries n (k % n) ws ++ [v] := by
  simp [bucketEntries, List.filter_append]

lemma bucketEntries_append_miss {n k b2 : Nat} {v : List Nat}
    (hb : ¬ (k % n = b2)) (ws : List (Nat × List Nat)) :
    bucketEntries n b2 (ws ++ [(k, v)]) = bucketEntries n b2 ws := by
  simp [bucketEntries, List.filter_append, hb]

lemma wsSize_single (k : Nat) (v : List Nat) : wsSize [(k, v)] = 16 + v.length := by
  simp [wsSize]


lemma inv_write {buf : List Nat} {n : Nat} {ws : List (Nat × List Nat)}
    (hInv : QuackInv buf n ws) (k : Nat) (v : List Nat)
    (hok : (Quack.write buf k v).2 = true) :
    QuackInv (Quack.write buf k v).1 n (ws ++ [(k, v)]) := by
  obtain ⟨hlen, hn, hss, hL, hcap, hslots, hnz⟩ := hInv
  obtain ⟨hpos, h64, hreq⟩ := (write_ok_iff hn hL).mp hok
  rw [write_ok_spec hn hL hpos h64 hreq]
  show QuackInv (writeResult buf k v n (wsSize ws)) n (ws ++ [(k, v)])
  have hmod : k % n < n := Nat.mod_lt _ hpos
  set L := wsSize ws with hLdef
  set b := k % n with hbdef
  set ohd := be_combine (getSlice buf (b * 8 + 16) 8) with hohd
  set nh := L + (16 + n * 8) with hnh
  set node : List Nat := toBE8 ohd ++ toBE8 v.length ++ v with hnode
  have hws1 : wsSize [(k, v)] = 16 + v.length := wsSize_single k v
  have hnodelen : node.length = 16 + v.length := by
    rw [hnode]; simp only [List.length_append, length_toBE8]
  -- the old chain of bucket b, and the identification of ohd with its head
  obtain ⟨headb, hrsb, hchainb⟩ := hslots b hmod
  have hohdeq : ohd = headb := by
    have h : read_slot buf b = some (be_combine (getSlice buf (b * 8 + 16) 8)) :=
      read_slot_eq_some (by omega) (by omega)
    rw [hrsb] at h
    injection h with h
    rw [hohd, h]
  have hheadlt : headb < nh ∧ headb < u64Bound := by
    rcases hchainb.head_bound with h0 | ⟨hlo, hne, hhi⟩
    · constructor <;> omega
    · constructor <;> omega
  -- the three buffer layers
  have hb1 : nh + node.length ≤ buf.length := by rw [hnodelen]; omega
  have hd1len : (setRange buf nh node).length = buf.length := length_setRange hb1
  have hbl2 : b * 8 + 16 + (toBE8 nh).length ≤ (setRange buf nh node).length := by
    rw [length_toBE8, hd1len]; omega
  have hd2len : (setRange (setRange buf nh node) (b * 8 + 16) (toBE8 nh)).length
      = buf.length := by rw [length_setRange hbl2, hd1len]
  have hbl3 : 8 + (toBE8 ((16 + v.length) + L)).length ≤
      (setRange (setRange buf nh node) (b * 8 + 16) (toBE8 nh)).length := by
    rw [length_toBE8, hd2len]; omega
  have hwr : writeResult buf k v n L =
      setRange (setRange (setRange buf nh node) (b * 8 + 16) (toBE8 nh)) 8
        (toBE8 ((16 + v.length) + L)) := rfl
  have hwrlen : (writeResult buf k v n L).length = buf.length := by
    rw [hwr, length_setRange hbl3, hd2len]
  -- pointwise agreement with the old buffer
  have haga : ∀ i, i < 8 → (writeResult buf k v n L)[i]? = buf[i]? := by
    intro i hi
    rw [hwr, getElem?_setRange_lt hbl3 (by omega), getElem?_setRange_lt hbl2 (by omega),
      getElem?_setRange_lt hb1 (by omega)]
  have hagm : ∀ i, 16 ≤ i → i < nh → ¬(b * 8 + 16 ≤ i ∧ i < b * 8 + 16 + 8) →
      (writeResult buf k v n L)[i]? = buf[i]? := by
    intro i h1 h2 h3
    rw [hwr, getElem?_setRange_ge hbl3 (by rw [length_toBE8]; omega)]
    by_cases hc : i < b * 8 + 16
    · rw [getElem?_setRange_lt hbl2 hc, getElem?_setRange_lt hb1 h2]
    · rw [getElem?_setRange_ge hbl2 (by rw [length_toBE8]; omega),
        getElem?_setRange_lt hb1 h2]
  -- the node region agrees with the first layer
  have hagn : ∀ i, nh ≤ i → i < nh + node.length →
      (writeResult buf k v n L)[i]? = (setRange buf nh node)[i]? := by
    intro i h1 h2
    rw [hwr, getElem?_setRange_ge hbl3 (by rw [length_toBE8]; omega),
      getElem?_setRange_ge hbl2 (by rw [length_toBE8]; omega)]
  refine ⟨by omega, ?_, hss, ?_, by rw [hwrlen, wsSize_append, hws1]; omega, ?_, by omega⟩
  · unfold read_num_slots at hn ⊢
    rw [read_u64_congr hwrlen (fun i _ h2 => haga i (by omega))]
    exact hn
  · unfold read_store_len
    rw [hwr]
    have h := read_u64_setRange_toBE8 (l := setRange (setRange buf nh node)
      (b * 8 + 16) (toBE8 nh)) (s := 8) (v := (16 + v.length) + L)
      (by rw [hd2len]; omega) (by omega)
    rw [h, wsSize_append, hws1]
    congr 1
    rw [Nat.mod_eq_of_lt (by omega)]
    omega
  · intro b2 hb2lt
    have hrs2 : read_slot (writeResult buf k v n L) b2 =
        some (be_combine (getSlice (writeResult buf k v n L) (b2 * 8 + 16) 8)) :=
      read_slot_eq_some (by rw [hwrlen]; omega) (by omega)
    by_cases hcase : b2 = b
    · -- the written bucket: new head is the fresh node
      subst hcase
      have hslv : getSlice (writeResult buf k v n L) (b * 8 + 16) 8 = toBE8 nh := by
        have hg : ∀ i, b * 8 + 16 ≤ i → i < b * 8 + 16 + 8 →
            (writeResult buf k v n L)[i]? =
            (setRange (setRange buf nh node) (b * 8 + 16) (toBE8 nh))[i]? := by
          intro i h1 h2
          rw [hwr, getElem?_setRange_ge hbl3 (by rw [length_toBE8]; omega)]
        rw [getSlice_congr hg, getSlice_setRange_self8 (by rw [hd1len]; omega)]
      have hcn1 : read_u64 (writeResult buf k v n L) nh =
          read_u64 (setRange buf nh node) nh :=
        read_u64_congr (hwrlen.trans hd1len.symm)
          (fun i h1 h2 => hagn i (by omega) (by omega))
      have hreadnext : read_u64 (writeResult buf k v n L) nh = some headb := by
        rw [hcn1, read_u64_eq_some (by rw [hd1len]; omega) (by omega)]
        have hs : getSlice (setRange buf nh node) nh 8 = toBE8 ohd := by
          have h := getSlice_setRange_within (l := buf) (s := nh) (m := node)
            (a := nh) (n := 8) hb1 (by omega) (by rw [hnodelen]; omega)
          rw [h, Nat.sub_self, hnode, getSlice_node_0]
        rw [hs, be_combine_toBE8, hohdeq, Nat.mod_eq_of_lt (by omega)]
      have hcn2 : read_u64 (writeResult buf k v n L) (8 + nh) =
          read_u64 (setRange buf nh node) (8 + nh) :=
        read_u64_congr (hwrlen.trans hd1len.symm)
          (fun i h1 h2 => hagn i (by omega) (by omega))
      have hreadlen : read_u64 (writeResult buf k v n L) (8 + nh) = some v.length := by
        rw [hcn2, read_u64_eq_some (by rw [hd1len]; omega) (by omega)]
        have hs : getSlice (setRange buf nh node) (8 + nh) 8 = toBE8 v.length := by
          have h := getSlice_setRange_within (l := buf) (s := nh) (m := node)
            (a := 8 + nh) (n := 8) hb1 (by omega) (by rw [hnodelen]; omega)
          rw [h, show 8 + nh - nh = 8 by omega, hnode, getSlice_node_8]
        rw [hs, be_combine_toBE8, Nat.mod_eq_of_lt (by omega)]
      have hcn3 : get_range_dynamic (writeResult buf k v n L) (16 + nh) v.length =
          get_range_dynamic (setRange buf nh node) (16 + nh) v.length :=
        get_range_dynamic_congr (hwrlen.trans hd1len.symm)
          (fun i h1 h2 => hagn i (by omega) (by rw [hnodelen]; omega))
      have hreadpay : get_range_dynamic (writeResult buf k v n L) (16 + nh) v.length
          = some v := by
        rw [hcn3, get_range_dynamic_eq_some (by rw [hd1len]; omega) (by omega)]
        congr 1
        have h := getSlice_setRange_within (l := buf) (s := nh) (m := node)
          (a := 16 + nh) (n := v.length) hb1 (by omega) (by rw [hnodelen]; omega)
        rw [h, show 16 + nh - nh = 16 by omega, hnode, getSlice_node_16]
      have hchainA : Chain (writeResult buf k v n L) (16 + 8 * n) (16 + 8 * n + L)
          headb (bucketEntries n b ws).reverse :=
        hchainb.congr hwrlen.symm
          (fun i h1 h2 => (hagm i (by omega) (by omega) (by omega)).symm)
      have hchain2 : Chain (writeResult buf k v n L) (16 + 8 * n)
          (16 + 8 * n + wsSize (ws ++ [(k, v)])) headb (bucketEntries n b ws).reverse :=
        hchainA.mono_hi (by rw [wsSize_append, hws1]; omega)
      refine ⟨nh, ?_, ?_⟩
      · rw [hrs2, hslv, be_combine_toBE8, Nat.mod_eq_of_lt (by omega)]
      · have hit : bucketEntries n b (ws ++ [(k, v)]) = bucketEntries n b ws ++ [v] := by
          rw [hbdef]
          exact bucketEntries_append_hit ws
        rw [hit, List.reverse_append, List.reverse_singleton, List.singleton_append]
        exact Chain.cons (by omega) (by omega) (by rw [wsSize_append, hws1]; omega)
          hreadnext hreadlen hreadpay (by omega) hchain2
    · -- an untouched bucket
      obtain ⟨headb2, hrsb2, hchainb2⟩ := hslots b2 hb2lt
      have hvb2 : be_combine (getSlice buf (b2 * 8 + 16) 8) = headb2 := by
        have h : read_slot buf b2 = some (be_combine (getSlice buf (b2 * 8 + 16) 8)) :=
          read_slot_eq_some (by omega) (by omega)
        rw [hrsb2] at h
        injection h with h
        exact h.symm
      refine ⟨headb2, ?_, ?_⟩
      · rw [hrs2]
        have hsl : getSlice (writeResult buf k v n L) (b2 * 8 + 16) 8 =
            getSlice buf (b2 * 8 + 16) 8 :=
          getSlice_congr (fun i h1 h2 => hagm i (by omega) (by omega) (by omega))
        rw [hsl, hvb2]
      · have hmiss : bucketEntries n b2 (ws ++ [(k, v)]) = bucketEntries n b2 ws :=
          bucketEntries_append_miss (by omega) ws
        rw [hmiss]
        have hchainA : Chain (writeResult buf k v n L) (16 + 8 * n) (16 + 8 * n + L)
            headb2 (bucketEntries n b2 ws).reverse :=
          hchainb2.congr hwrlen.symm
            (fun i h1 h2 => (hagm i (by omega) (by omega) (by omega)).symm)
        exact hchainA.mono_hi (by rw [wsSize_append, hws1]; omega)

/-! ### Reachable states and the round trip -/

lemma inv_buildList {n : Nat} :
    ∀ (ws2 : List (Nat × List Nat)) (buf buf2 : List Nat) (ws : List (Nat × List Nat)),
    QuackInv buf n ws → buildList buf ws2 = some buf2 → QuackInv buf2 n (ws ++ ws2) := by
  intro ws2
  induction ws2 with
  | nil =>
    intro buf buf2 ws hInv h
    simp only [buildList, Option.some.injEq] at h
    subst h
    simpa using hInv
  | cons w rest ih =>
    intro buf buf2 ws hInv h
    obtain ⟨k, v⟩ := w
    unfold buildList at h
    cases hw : Quack.write buf k v with
    | mk b1 flag =>
      rw [hw] at h
      cases flag with
      | false => simp at h
      | true =>
        simp only [] at h
        have hok : (Quack.write buf k v).2 = true := by rw [hw]
        have hinv1 := inv_write hInv k v hok
        rw [hw] at hinv1
        have hres := ih b1 buf2 (ws ++ [(k, v)]) hinv1 h
        rwa [List.append_assoc] at hres

lemma inv_buildFull {m n : Nat} {ws : List (Nat × List Nat)} {buf : List Nat}
    (hm : m < u64Bound) (h : buildFull m n ws = some buf) : QuackInv buf n ws := by
  unfold buildFull at h
  cases hi : init_assume_zeroed (List.replicate m 0) n with
  | none => rw [hi] at h; simp at h
  | some b1 =>
    rw [hi] at h
    simp only [] at h
    have h0 := inv_init hm hi
    have hres := inv_buildList ws b1 buf [] h0 h
    simpa using hres

lemma inv_readList {buf : List Nat} {n : Nat} {ws : List (Nat × List Nat)}
    (hInv : QuackInv buf n ws) (k : Nat) :
    readList buf k = some (bucketEntries n (k % n) ws).reverse := by
  obtain ⟨hlen, hn, hss, hL, hcap, hslots, hnz⟩ := hInv
  by_cases hpos : 0 < n
  · obtain ⟨head, hrs, hchain⟩ := hslots (k % n) (Nat.mod_lt _ hpos)
    have hrd : Quack.read buf k = some ⟨buf, head⟩ := by
      simp only [Quack.read, hn, checked_rem_eq_some hpos, hrs]
    simp only [readList, hrd, Option.some.injEq]
    exact chain_collect (by omega) hlen hchain
  · have hn0 : n = 0 := by omega
    subst hn0
    have hws : ws = [] := hnz rfl
    subst hws
    have hrem : checked_rem k 0 = none := by simp [checked_rem]
    have hrd : Quack.read buf k = some Sequence.empty := by
      simp only [Quack.read, hn, hrem]
    simp only [readList, hrd]
    rfl

lemma inv_read_isSome {buf : List Nat} {n : Nat} {ws : List (Nat × List Nat)}
    (hInv : QuackInv buf n ws) (k : Nat) : (Quack.read buf k).isSome := by
  obtain ⟨hlen, hn, hss, hL, hcap, hslots, hnz⟩ := hInv
  by_cases hpos : 0 < n
  · obtain ⟨head, hrs, hchain⟩ := hslots (k % n) (Nat.mod_lt _ hpos)
    simp only [Quack.read, hn, checked_rem_eq_some hpos, hrs]
    rfl
  · have hn0 : n = 0 := by omega
    subst hn0
    have hrem : checked_rem k 0 = none := by simp [checked_rem]
    simp only [Quack.read, hn, hrem]
    rfl

/-! ### Claim theorems -/


/-- C1: for every `num_slots > 0` (`n = 0` degenerates to no successful writes
and empty reads) and zero-filled buffer, after any sequence of successful
writes, `read k` yields exactly the payloads written to `k`'s bucket
(`k_i % n = k % n`), most recent first. -/
theorem round_trip_per_key (m n : Nat) (ws : List (Nat × List Nat)) (buf : List Nat)
    (hm : m < u64Bound) (hbuild : buildFull m n ws = some buf) (k : Nat) :
    readList buf k =
      some (((ws.filter (fun w => w.1 % n == k % n)).map Prod.snd).reverse) :=
  inv_readList (inv_buildFull hm hbuild) k

/-- C1 witness: the spec's concrete scenario — a 4-slot table with writes
`(0,"hello")` then `(0,"world")` reads back `["world","hello"]` at key 0. -/
theorem round_trip_per_key_witness :
    readList ((buildFull 112 4 hwWrites).getD []) 0 =
      some [[119, 111, 114, 108, 100], [104, 101, 108, 108, 111]] := by
  have h := round_trip_per_key 112 4 hwWrites ((buildFull 112 4 hwWrites).getD [])
    (by decide) rfl 0
  rw [h]
  rfl

/-- C2 counterexample: after one successful write into a freshly-initialized
4-slot table, the non-zero slot value is 48 (a buffer-absolute offset) while
`store_len` is 21, so the slot value does not lie in `[0, store_len)` and is
not a store-relative offset. -/
theorem slot_not_store_relative_cex :
    read_slot ((buildFull 112 4 oneWrite).getD []) 0 = some 48 ∧
    read_store_len ((buildFull 112 4 oneWrite).getD []) = some 21 ∧
    ¬ (48 < 21) := by
  refine ⟨by decide, by decide, by decide⟩

/-- C2 amended: in every reachable state, a non-zero slot value (and, through
the `Chain` predicate, every non-zero `next` field of a reachable node) is the
buffer-absolute offset of a fully-written node lying within
`[16 + 8*num_slots, 16 + 8*num_slots + store_len)`. -/
theorem slot_offsets_absolute (m n : Nat) (ws : List (Nat × List Nat)) (buf : List Nat)
    (hm : m < u64Bound) (hbuild : buildFull m n ws = some buf) :
    read_store_len buf = some (wsSize ws) ∧
    ∀ b, b < n → ∃ head, read_slot buf b = some head ∧
      Chain buf (16 + 8 * n) (16 + 8 * n + wsSize ws) head (bucketEntries n b ws).reverse ∧
      (head ≠ 0 → 16 + 8 * n ≤ head ∧ head + 16 ≤ 16 + 8 * n + wsSize ws) := by
  have hInv := inv_buildFull hm hbuild
  refine ⟨hInv.hL, ?_⟩
  intro b hb
  obtain ⟨head, hrs, hchain⟩ := hInv.slots b hb
  refine ⟨head, hrs, hchain, ?_⟩
  intro hne
  rcases hchain.head_bound with h0 | ⟨h1, h2, h3⟩
  · exact absurd h0 hne
  · exact ⟨h1, by omega⟩

/-- C2 amended witness: the single-write scenario instantiates the amended
claim. -/
theorem slot_offsets_absolute_witness :
    read_store_len ((buildFull 112 4 oneWrite).getD []) = some (wsSize oneWrite) ∧
    ∀ b, b < 4 → ∃ head, read_slot ((buildFull 112 4 oneWrite).getD []) b = some head ∧
      Chain ((buildFull 112 4 oneWrite).getD []) (16 + 8 * 4) (16 + 8 * 4 + wsSize oneWrite)
        head (bucketEntries 4 b oneWrite).reverse ∧
      (head ≠ 0 → 16 + 8 * 4 ≤ head ∧ head + 16 ≤ 16 + 8 * 4 + wsSize oneWrite) :=
  slot_offsets_absolute 112 4 oneWrite ((buildFull 112 4 oneWrite).getD [])
    (by decide) rfl

/-- C3 counterexample: `read` on the empty (0-byte) buffer fails with an
error rather than returning a sequence. -/
theorem read_can_fail_cex : Quack.read ([] : List Nat) 0 = none := rfl

/-- C3 amended: `read` never fails on any buffer whose recorded header and
slot table fit in the buffer (in particular every reachable state); when
`num_slots = 0` it returns the empty sequence. -/
theorem read_total_on_wellformed (buf : List Nat) (n k : Nat)
    (hn : read_num_slots buf = some n) (hsz : 16 + 8 * n ≤ buf.length)
    (h64 : 16 + 8 * n < u64Bound) :
    (Quack.read buf k).isSome ∧ (n = 0 → Quack.read buf k = some Sequence.empty) := by
  by_cases hpos : 0 < n
  · have hmod : k % n < n := Nat.mod_lt _ hpos
    have hrs : read_slot buf (k % n) =
        some (be_combine (getSlice buf ((k % n) * 8 + 16) 8)) :=
      read_slot_eq_some (by omega) (by omega)
    constructor
    · simp only [Quack.read, hn, checked_rem_eq_some hpos, hrs]
      rfl
    · intro h0; omega
  · have hn0 : n = 0 := by omega
    subst hn0
    have hrem : checked_rem k 0 = none := by simp [checked_rem]
    constructor
    · simp only [Quack.read, hn, hrem]
      rfl
    · intro _
      simp only [Quack.read, hn, hrem]

/-- C3 amended witness: a 16-byte zero buffer records `num_slots = 0` and
reads back the empty sequence for any key. -/
theorem read_total_on_wellformed_witness :
    (Quack.read (List.replicate 16 0) 5).isSome ∧
    ((0 : Nat) = 0 → Quack.read (List.replicate 16 0) 5 = some Sequence.empty) :=
  read_total_on_wellformed (List.replicate 16 0) 0 5 (by decide) (by decide) (by decide)

/-- C4: whenever `write` fails, the buffer is left completely unchanged —
`num_slots`, `store_len`, every slot, and every store byte keep their values. -/
theorem write_fail_leaves_unchanged (buf : List Nat) (k : Nat) (v : List Nat)
    (h : (Quack.write buf k v).2 = false) :
    (Quack.write buf k v).1 = buf := by
  rcases write_total_cases buf k v with hc | hc
  · rw [hc]
  · rw [hc.1] at h
    simp at h

/-- C4 witness: a write into a too-small (empty) buffer fails and leaves the
buffer unchanged. -/
theorem write_fail_leaves_unchanged_witness :
    (Quack.write ([] : List Nat) 0 []).2 = false ∧ (Quack.write ([] : List Nat) 0 []).1 = [] :=
  ⟨by decide, write_fail_leaves_unchanged [] 0 [] (by decide)⟩

/-- C7: with `num_slots = 0` recorded in the header, `read` returns the empty
sequence for every key, `write` fails with the buffer unchanged for every key
and payload, and zero-slot initialization is total, succeeding exactly on
buffers of at least the 16 header bytes. -/
theorem zero_slots_safe (buf : List Nat) (k : Nat) (v : List Nat)
    (h : read_num_slots buf = some 0) :
    Quack.read buf k = some Sequence.empty ∧
    Quack.write buf k v = (buf, false) ∧
    (∀ m : Nat, (init_assume_zeroed (List.replicate m 0) 0).isSome ↔ 16 ≤ m) := by
  have hrem : checked_rem k 0 = none := by simp [checked_rem]
  refine ⟨?_, ?_, ?_⟩
  · simp only [Quack.read, h, hrem]
  · cases hL : read_store_len buf with
    | none => simp only [Quack.write, h, hL]
    | some L => simp only [Quack.write, h, hL, hrem]
  · intro m
    rw [init_isSome_iff]
    rw [List.length_replicate]
    constructor
    · intro hc; omega
    · intro hc
      refine ⟨by norm_num [u64Bound], by omega⟩

/-- C7 witness: a 16-byte zero buffer records `num_slots = 0`. -/
theorem zero_slots_safe_witness :
    Quack.read (List.replicate 16 0) 3 = some Sequence.empty ∧
    Quack.write (List.replicate 16 0) 3 [7] = (List.replicate 16 0, false) ∧
    (∀ m : Nat, (init_assume_zeroed (List.replicate m 0) 0).isSome ↔ 16 ≤ m) :=
  zero_slots_safe (List.replicate 16 0) 3 [7] (by decide)

/-- C8: initialization succeeds exactly when the buffer holds at least
`16 + 8 * num_slots` bytes and that size fits in a `u64`; on success the
header records `num_slots` and `store_len = 0`. -/
theorem init_size_check (data : List Nat) (n : Nat) :
    ((init_assume_zeroed data n).isSome ↔
      16 + 8 * n < u64Bound ∧ 16 + 8 * n ≤ data.length) ∧
    ∀ buf, init_assume_zeroed data n = some buf →
      read_num_slots buf = some n ∧ read_store_len buf = some 0 := by
  constructor
  · rw [init_isSome_iff]
    constructor
    · intro hc
      exact ⟨by omega, by omega⟩
    · intro hc
      exact ⟨by omega, by omega⟩
  · intro buf h
    exact init_header h

/-- C8 witness: a 32-byte zero buffer initializes with 2 slots and the header
reads back. -/
theorem init_size_check_witness :
    read_num_slots ((init_assume_zeroed (List.replicate 32 0) 2).getD []) = some 2 ∧
    read_store_len ((init_assume_zeroed (List.replicate 32 0) 2).getD []) = some 0 :=
  (init_size_check (List.replicate 32 0) 2).2
    ((init_assume_zeroed (List.replicate 32 0) 2).getD []) rfl

/-- C9: the byte-access primitives succeed exactly on accesses that neither
overflow 64-bit arithmetic nor exceed the buffer; every overflowing or
out-of-range case yields the error (`none`), under which no buffer is
produced, i.e. nothing is read or written. -/
theorem primitives_overflow_safe (data : List Nat) (start len v : Nat)
    (payload : List Nat) :
    ((get_range_dynamic data start len).isSome ↔
      start + len < u64Bound ∧ start + len ≤ data.length) ∧
    ((read_u64 data start).isSome ↔ start + 8 < u64Bound ∧ start + 8 ≤ data.length) ∧
    ((write_u64 data start v).isSome ↔ start + 8 < u64Bound ∧ start + 8 ≤ data.length) ∧
    ((write_range data start payload).isSome ↔
      start + payload.length < u64Bound ∧ start + payload.length ≤ data.length) :=
  ⟨get_range_dynamic_isSome_iff data start len, read_u64_isSome_iff data start,
   write_u64_isSome_iff data start v, write_range_isSome_iff data start payload⟩

/-- C10: in every reachable state, `read k` returns a sequence whose cursor
heads a `Chain`: every node's next pointer is 0 or strictly below the node's
own offset (the `Chain.cons` constructor carries `nxt < off`), and the
traversal terminates: any fuel of at least the chain length collects exactly
the chain's payloads. -/
theorem chains_terminate (m n : Nat) (ws : List (Nat × List Nat)) (buf : List Nat)
    (hm : m < u64Bound) (hbuild : buildFull m n ws = some buf) (k : Nat) :
    ∃ s ps, Quack.read buf k = some s ∧
      Chain s.data (16 + 8 * n) (16 + 8 * n + wsSize ws) s.next ps ∧
      ∀ fuel, ps.length ≤ fuel → seqTake fuel s = ps := by
  obtain ⟨hlen, hn, hss, hL, hcap, hslots, hnz⟩ := inv_buildFull hm hbuild
  by_cases hpos : 0 < n
  · obtain ⟨head, hrs, hchain⟩ := hslots (k % n) (Nat.mod_lt _ hpos)
    refine ⟨⟨buf, head⟩, (bucketEntries n (k % n) ws).reverse, ?_, hchain, ?_⟩
    · simp only [Quack.read, hn, checked_rem_eq_some hpos, hrs]
    · exact chain_seqTake (by omega) hlen hchain
  · have hn0 : n = 0 := by omega
    subst hn0
    have hws : ws = [] := hnz rfl
    subst hws
    have hrem : checked_rem k 0 = none := by simp [checked_rem]
    refine ⟨Sequence.empty, [], ?_, Chain.nil, ?_⟩
    · simp only [Quack.read, hn, hrem]
    · intro fuel _
      cases fuel with
      | zero => rfl
      | succ f => simp [seqTake, Sequence.tryNext, Sequence.empty]

/-- C10 witness: the two-write scenario instantiates termination. -/
theorem chains_terminate_witness :
    ∃ s ps, Quack.read ((buildFull 112 4 hwWrites).getD []) 0 = some s ∧
      Chain s.data (16 + 8 * 4) (16 + 8 * 4 + wsSize hwWrites) s.next ps ∧
      ∀ fuel, ps.length ≤ fuel → seqTake fuel s = ps :=
  chains_terminate 112 4 hwWrites ((buildFull 112 4 hwWrites).getD [])
    (by decide) rfl 0

/-! ### The optimize pass -/

lemma wsSize_tagKey (b : Nat) (l : List (List Nat)) : wsSize (tagKey b l) = sizeL l := by
  unfold wsSize tagKey sizeL
  rw [List.map_map]
  rfl

lemma sizeL_cons (e : List Nat) (es : List (List Nat)) :
    sizeL (e :: es) = (16 + e.length) + sizeL es := by
  simp [sizeL]

lemma sizeL_reverse (l : List (List Nat)) : sizeL l.reverse = sizeL l := by
  simp [sizeL, List.map_reverse, List.sum_reverse]

lemma sum_map_if_mem {l : List Nat} {c x : Nat} {f : Nat → Nat}
    (hc : c ∈ l) (hnd : l.Nodup) :
    (l.map (fun b => if b = c then x + f b else f b)).sum = x + (l.map f).sum := by
  induction l with
  | nil => simp at hc
  | cons a rest ih =>
    rw [List.nodup_cons] at hnd
    rcases List.mem_cons.mp hc with h1 | h2
    · subst h1
      have hrest : ∀ e ∈ rest, (if e = c then x + f e else f e) = f e := by
        intro e he
        rw [if_neg]
        intro hec
        subst hec
        exact hnd.1 he
      have hcc : (if c = c then x + f c else f c) = x + f c := if_pos rfl
      rw [List.map_cons, List.sum_cons, hcc, List.map_congr_left hrest,
        List.map_cons, List.sum_cons]
      omega
    · have hca : ¬ (a = c) := by
        intro h
        subst h
        exact hnd.1 h2
      simp only [List.map, List.sum_cons, if_neg hca]
      rw [ih h2 hnd.2]
      omega

lemma bucket_size_total {n : Nat} (hpos : 0 < n) (ws : List (Nat × List Nat)) :
    ((List.range n).map (fun b => sizeL (bucketEntries n b ws))).sum = wsSize ws := by
  induction ws with
  | nil =>
    simp [bucketEntries, sizeL, wsSize]
  | cons w ws ih =>
    have hsz : ∀ b, sizeL (bucketEntries n b (w :: ws)) =
        if b = w.1 % n then (16 + w.2.length) + sizeL (bucketEntries n b ws)
        else sizeL (bucketEntries n b ws) := by
      intro b
      by_cases h : w.1 % n = b
      · rw [if_pos h.symm]
        have : bucketEntries n b (w :: ws) = w.2 :: bucketEntries n b ws := by
          simp [bucketEntries, List.filter_cons, h]
        rw [this, sizeL_cons]
      · rw [if_neg (fun hh => h hh.symm)]
        have : bucketEntries n b (w :: ws) = bucketEntries n b ws := by
          simp [bucketEntries, List.filter_cons, h]
        rw [this]
    rw [List.map_congr_left (fun b _ => hsz b),
      sum_map_if_mem (List.mem_range.mpr (Nat.mod_lt _ hpos)) (List.nodup_range n), ih]
    have : wsSize (w :: ws) = (16 + w.2.length) + wsSize ws := by
      simp [wsSize]
    omega

lemma optWriteChain_spec {n b : Nat} (hb : b < n) :
    ∀ (entries : List (List Nat)) (dest : List Nat) (acc : List (Nat × List Nat)),
    QuackInv dest n acc →
    16 + 8 * n + wsSize acc + sizeL entries ≤ dest.length →
    ∃ dest2, optWriteChain b dest entries = some dest2 ∧
      QuackInv dest2 n (acc ++ tagKey b entries) ∧ dest2.length = dest.length := by
  intro entries
  induction entries with
  | nil =>
    intro dest acc hInv hcap
    exact ⟨dest, rfl, by simpa [tagKey] using hInv, rfl⟩
  | cons e es ih =>
    intro dest acc hInv hcap
    have hsz := sizeL_cons e es
    have hok : (Quack.write dest b e).2 = true := by
      rw [write_ok_iff hInv.hn hInv.hL]
      have := hInv.len_lt
      exact ⟨by omega, by omega, by omega⟩
    cases hw : Quack.write dest b e with
    | mk d1 flag =>
      have hflag : flag = true := by rw [hw] at hok; exact hok
      subst hflag
      have hinv1 : QuackInv d1 n (acc ++ [(b, e)]) := by
        have h := inv_write hInv b e hok
        rw [hw] at h
        exact h
      have hlen1 : d1.length = dest.length := by
        rcases write_total_cases dest b e with hc | hc
        · rw [hw] at hc
          simp at hc
        · rw [hw] at hc
          exact hc.2
      have hbmod : b % n = b := Nat.mod_eq_of_lt hb
      obtain ⟨dest2, hoc, hinv2, hlen2⟩ := ih d1 (acc ++ [(b, e)]) hinv1 (by
        rw [wsSize_append, wsSize_single, hlen1]
        omega)
      refine ⟨dest2, ?_, ?_, by omega⟩
      · simp only [optWriteChain, hw]
        exact hoc
      · rwa [List.append_assoc] at hinv2

lemma optSlots_spec {src : List Nat} {n : Nat} {ws : List (Nat × List Nat)}
    (hsrc : QuackInv src n ws) (hpos : 0 < n) :
    ∀ (bs : List Nat) (dest : List Nat) (acc : List (Nat × List Nat)),
    QuackInv dest n acc → dest.length = src.length →
    (∀ b ∈ bs, b < n) →
    wsSize acc + (bs.map (fun b => sizeL (bucketEntries n b ws))).sum ≤ wsSize ws →
    ∃ dest2, optSlots src dest bs = some dest2 ∧
      QuackInv dest2 n (acc ++ destWrites n ws bs) ∧ dest2.length = src.length := by
  intro bs
  induction bs with
  | nil =>
    intro dest acc hInv hlen hmem hbud
    exact ⟨dest, rfl, by simpa [destWrites] using hInv, hlen⟩
  | cons b bs ih =>
    intro dest acc hInv hlen hmem hbud
    have hb : b < n := hmem b (List.mem_cons_self b bs)
    obtain ⟨head, hrs, hchain⟩ := hsrc.slots b hb
    have hbmod : b % n = b := Nat.mod_eq_of_lt hb
    have hrd : Quack.read src b = some ⟨src, head⟩ := by
      have hrs2 : read_slot src (b % n) = some head := by rw [hbmod]; exact hrs
      simp only [Quack.read, hsrc.hn, checked_rem_eq_some hpos, hrs2]
    have hcol : Sequence.collect ⟨src, head⟩ = (bucketEntries n b ws).reverse :=
      chain_collect (by have := hsrc.cap; omega) hsrc.len_lt hchain
    simp only [List.map, List.sum_cons] at hbud
    have hrevsz := sizeL_reverse (bucketEntries n b ws)
    obtain ⟨d1, hwc, hinv1, hlen1⟩ := optWriteChain_spec hb
      ((bucketEntries n b ws).reverse) dest acc hInv (by
        have := hsrc.cap
        omega)
    obtain ⟨dest2, hos, hinv2, hlen2⟩ := ih d1 (acc ++ tagKey b (bucketEntries n b ws).reverse)
      hinv1 (by omega) (fun c hc => hmem c (List.mem_cons_of_mem b hc)) (by
        rw [wsSize_append, wsSize_tagKey]
        omega)
    refine ⟨dest2, ?_, ?_, hlen2⟩
    · simp only [optSlots, hrd, hcol, hwc]
      exact hos
    · have : destWrites n ws (b :: bs) =
          tagKey b (bucketEntries n b ws).reverse ++ destWrites n ws bs := rfl
      rw [this, ← List.append_assoc]
      exact hinv2

lemma optimize_spec {src : List Nat} {n : Nat} {ws : List (Nat × List Nat)}
    (hsrc : QuackInv src n ws) :
    ∃ dest, optimize src = some dest ∧
      QuackInv dest n (destWrites n ws (List.range n)) ∧ dest.length = src.length := by
  have hsl : Quack.slots src = some n := hsrc.hn
  have hi : (init_assume_zeroed (List.replicate src.length 0) n).isSome :=
    (init_isSome_iff _ _).mpr ⟨by have := hsrc.hss; omega,
      by rw [List.length_replicate]; have := hsrc.cap; omega⟩
  obtain ⟨dest0, hd0⟩ := Option.isSome_iff_exists.mp hi
  have hinv0 : QuackInv dest0 n [] := inv_init hsrc.len_lt hd0
  have hlen0 : dest0.length = src.length := by
    rw [init_length hd0, List.length_replicate]
  by_cases hpos : 0 < n
  · obtain ⟨dest, hos, hinv, hlen⟩ := optSlots_spec hsrc hpos (List.range n) dest0 []
      hinv0 hlen0 (fun b hb => List.mem_range.mp hb)
      (by rw [wsSize_nil, bucket_size_total hpos ws]; omega)
    refine ⟨dest, ?_, by simpa using hinv, hlen⟩
    have hsl2 : read_num_slots src = some n := hsrc.hn
    simp only [optimize, Quack.slots, hsl2, hd0]
    exact hos
  · have hn0 : n = 0 := by omega
    subst hn0
    refine ⟨dest0, ?_, ?_, hlen0⟩
    · have hsl2 : read_num_slots src = some 0 := hsrc.hn
      simp only [optimize, Quack.slots, hsl2, hd0, List.range_zero, optSlots]
    · simp only [List.range_zero, destWrites]
      exact hinv0

lemma bucketEntries_append (n b : Nat) (l1 l2 : List (Nat × List Nat)) :
    bucketEntries n b (l1 ++ l2) = bucketEntries n b l1 ++ bucketEntries n b l2 := by
  simp [bucketEntries, List.filter_append]

lemma bucketEntries_tagKey {n b c : Nat} (hc : c < n) (l : List (List Nat)) :
    bucketEntries n b (tagKey c l) = if c = b then l else [] := by
  induction l with
  | nil =>
    simp only [tagKey, List.map_nil, bucketEntries_nil]
    split <;> rfl
  | cons p rest ih =>
    have hcm : c % n = c := Nat.mod_eq_of_lt hc
    by_cases h : c = b
    · subst h
      have hh : bucketEntries n c (tagKey c (p :: rest)) =
          p :: bucketEntries n c (tagKey c rest) := by
        simp [tagKey, bucketEntries, List.filter_cons, hcm]
      rw [hh, ih, if_pos rfl, if_pos rfl]
    · have hh : bucketEntries n b (tagKey c (p :: rest)) =
          bucketEntries n b (tagKey c rest) := by
        simp [tagKey, bucketEntries, List.filter_cons, hcm, h]
      rw [hh, ih, if_neg h, if_neg h]

lemma bucketEntries_destWrites {n b : Nat} {ws : List (Nat × List Nat)} (hb : b < n) :
    ∀ bs : List Nat, (∀ c ∈ bs, c < n) → bs.Nodup →
    bucketEntries n b (destWrites n ws bs) =
      if b ∈ bs then (bucketEntries n b ws).reverse else [] := by
  intro bs
  induction bs with
  | nil =>
    intro _ _
    simp [destWrites, bucketEntries_nil]
  | cons c rest ih =>
    intro hmem hnd
    rw [List.nodup_cons] at hnd
    have hstep : destWrites n ws (c :: rest) =
        tagKey c (bucketEntries n c ws).reverse ++ destWrites n ws rest := rfl
    rw [hstep, bucketEntries_append,
      bucketEntries_tagKey (hmem c (List.mem_cons_self c rest)),
      ih (fun x hx => hmem x (List.mem_cons_of_mem c hx)) hnd.2]
    by_cases h : c = b
    · subst h
      rw [if_pos rfl, if_neg hnd.1, if_pos (List.mem_cons_self c rest), List.append_nil]
    · rw [if_neg h, List.nil_append]
      have hmc : (b ∈ c :: rest) ↔ (b ∈ rest) := by
        rw [List.mem_cons]
        constructor
        · rintro (h1 | h2)
          · exact absurd h1.symm h
          · exact h2
        · exact Or.inr
      simp only [hmc]

/-- C5: from any built structure, the optimize pass succeeds and produces a
structure whose `read k` yields the same values as the source's `read k` in
exactly the reversed order (hence the same multiset). -/
theorem optimize_reverses_reads (m n : Nat) (ws : List (Nat × List Nat)) (buf : List Nat)
    (hm : m < u64Bound) (hbuild : buildFull m n ws = some buf) :
    ∃ dest, optimize buf = some dest ∧
      ∀ k, ∃ l, readList buf k = some l ∧ readList dest k = some l.reverse := by
  have hsrc := inv_buildFull hm hbuild
  obtain ⟨dest, hopt, hinvd, hlend⟩ := optimize_spec hsrc
  refine ⟨dest, hopt, ?_⟩
  intro k
  refine ⟨(bucketEntries n (k % n) ws).reverse, inv_readList hsrc k, ?_⟩
  rw [inv_readList hinvd k]
  by_cases hpos : 0 < n
  · rw [bucketEntries_destWrites (Nat.mod_lt _ hpos) (List.range n)
      (fun c hc => List.mem_range.mp hc) (List.nodup_range n),
      if_pos (List.mem_range.mpr (Nat.mod_lt _ hpos))]
  · have hn0 : n = 0 := by omega
    subst hn0
    have hws : ws = [] := hsrc.nz rfl
    subst hws
    rfl

/-- C5 witness: the spec's concrete scenario — source `read 0` is
`["world","hello"]` and the optimized structure's `read 0` is
`["hello","world"]`. -/
theorem optimize_reverses_reads_witness :
    ∃ dest, optimize ((buildFull 112 4 hwWrites).getD []) = some dest ∧
      ∀ k, ∃ l, readList ((buildFull 112 4 hwWrites).getD []) k = some l ∧
        readList dest k = some l.reverse :=
  optimize_reverses_reads 112 4 hwWrites ((buildFull 112 4 hwWrites).getD [])
    (by decide) rfl

set_option maxRecDepth 100000 in
/-- C6 counterexample: the code's optimize pass re-inserts each chain in the
order read; re-inserting in reverse of the order read (the spec's wording,
modelled by `optimizeSpecRev`) produces the opposite chain order on the
two-write scenario, so the two procedures are observably different and the
claim misdescribes the code. -/
theorem optimize_not_reverse_reinsertion_cex :
    readList ((optimize ((buildFull 112 4 hwWrites).getD [])).getD []) 0 =
      some [[104, 101, 108, 108, 111], [119, 111, 114, 108, 100]] ∧
    readList ((optimizeSpecRev ((buildFull 112 4 hwWrites).getD [])).getD []) 0 =
      some [[119, 111, 114, 108, 100], [104, 101, 108, 108, 111]] ∧
    ([[104, 101, 108, 108, 111], [119, 111, 114, 108, 100]] : List (List Nat)) ≠
      [[119, 111, 114, 108, 100], [104, 101, 108, 108, 111]] := by
  refine ⟨by decide, by decide, by decide⟩

/-- C6 amended: the optimize pass proceeds by, for each bucket index in
`0..num_slots`, reading the source bucket's full chain (newest first) and
re-inserting each value into the destination in the order read; the
destination, being LIFO-built, therefore reads back each bucket in the
original insertion order (oldest first). -/
theorem optimize_reinserts_in_read_order (m n : Nat) (ws : List (Nat × List Nat))
    (buf : List Nat) (hm : m < u64Bound) (hbuild : buildFull m n ws = some buf) :
    ∃ dest, optimize buf = some dest ∧
      ∀ k, readList dest k = some (bucketEntries n (k % n) ws) := by
  have hsrc := inv_buildFull hm hbuild
  obtain ⟨dest, hopt, hinvd, hlend⟩ := optimize_spec hsrc
  refine ⟨dest, hopt, ?_⟩
  intro k
  rw [inv_readList hinvd k]
  by_cases hpos : 0 < n
  · rw [bucketEntries_destWrites (Nat.mod_lt _ hpos) (List.range n)
      (fun c hc => List.mem_range.mp hc) (List.nodup_range n),
      if_pos (List.mem_range.mpr (Nat.mod_lt _ hpos)), List.reverse_reverse]
  · have hn0 : n = 0 := by omega
    subst hn0
    have hws : ws = [] := hsrc.nz rfl
    subst hws
    rfl

/-- C6 amended witness: on the two-write scenario the optimized structure
reads bucket 0 in insertion order `["hello","world"]`. -/
theorem optimize_reinserts_in_read_order_witness :
    ∃ dest, optimize ((buildFull 112 4 hwWrites).getD []) = some dest ∧
      ∀ k, readList dest k = some (bucketEntries 4 (k % 4) hwWrites) :=
  optimize_reinserts_in_read_order 112 4 hwWrites ((buildFull 112 4 hwWrites).getD [])
    (by decide) rfl
